import Mathlib

/-!
Shallow embedding of the level-1 DNA-storage codec (`l1/codec.go`) and proofs
about its address packing, parity handling, GC balancing and decode pipeline.
External collaborators (the bit-to-nucleotide codec `l0`, the `oligo` sequence
operations, the Reed-Solomon coder and the recovery routine) are abstracted as
function parameters gathered in the `Ext` structure, exactly at their call
interfaces.
-/

set_option maxHeartbeats 1000000

namespace L1

/-- Bit count of the low `k` bits of `v`; `onesCount64 = onesCountN 64` embeds
Go's `bits.OnesCount64` on a `uint64` value. -/
def onesCountN : Nat → Nat → Nat
  | 0, _ => 0
  | k + 1, v => v % 2 + onesCountN k (v / 2)

/-- Embedding of `bits.OnesCount64`. -/
def onesCount64 (v : Nat) : Nat := onesCountN 64 v

/-- Nucleotide sequences; the 4-letter alphabet is abstracted to `Nat` symbols. -/
abbrev Oligo := List Nat

/-- Embedding of `oligo.Slice(beg, e)`: `e = 0` means "to the end of the
sequence" and out-of-range bounds clamp. -/
def oslice (o : Oligo) (beg e : Nat) : Oligo :=
  if e = 0 then o.drop beg else (o.take e).drop beg

/-- The codec configuration (`Codec` struct): data block count, Reed-Solomon
metadata block count, metadata block length in nucleotides. The criteria and
the erasure-coder instance are external and live in `Ext`. -/
structure Codec where
  blknum : Nat
  rsnum : Nat
  mdsz : Nat
deriving DecidableEq, Repr

/-- The `maxvals` lookup table: number of values one metadata block can hold. -/
def maxvals (m : Nat) : Nat :=
  if m = 3 then 47 else if m = 4 then 186 else if m = 5 then 733 else 0

/-- `NewCodec`: fails (returns `none`, Go `nil`) unless `3 ≤ mdsz ≤ 5`. -/
def NewCodec (blknum mdsz rsnum : Nat) : Option Codec :=
  if mdsz < 3 ∨ mdsz > 5 then none
  else some ⟨blknum, rsnum, mdsz⟩

/-- `Codec.MaxAddr`: `maxvals[mdsz] ^ (blknum - rsnum) / 4`. -/
def MaxAddr (c : Codec) : Nat :=
  maxvals c.mdsz ^ (c.blknum - c.rsnum) / 4

/-- `Codec.OligoLen` (the `olen` field computed by `NewCodec`). -/
def OligoLen (c : Codec) : Nat :=
  c.blknum * 17 + c.mdsz * (c.blknum - c.rsnum) + 5 * c.rsnum

/-- The digit-splitting loop of `calculateMdBlocks`: `n` base-`base` digits,
most significant first, together with the quotient left after the loop. -/
def splitDigits (base : Nat) : Nat → Nat → List Nat × Nat
  | 0, v => ([], v)
  | n + 1, v =>
    ((splitDigits base n (v / base)).1 ++ [v % base], (splitDigits base n (v / base)).2)

/-- The digit-folding loop of `decode`: `md = md*maxval + digit`. -/
def foldDigits (base : Nat) (ds : List Nat) : Nat :=
  ds.foldl (fun md d => md * base + d) 0

/-- Outcome of `calculateMdBlocks`: a digit vector, a recoverable error, or one
of the two abort (`panic`) conditions in the function body. -/
inductive CalcResult where
  | ok : List Nat → CalcResult
  | errAddrTooBig : CalcResult
  | errRS : CalcResult
  | panicAddrNotZero : CalcResult
  | panicMdTooBig : CalcResult
deriving DecidableEq, Repr

/-- The flag adjustment at the top of `calculateMdBlocks`: add `2*MaxAddr` for
`sf`, then `MaxAddr` for `ef`. -/
def adjAddr (c : Codec) (a : Nat) (ef sf : Bool) : Nat :=
  a + (if sf then 2 * MaxAddr c else 0) + (if ef then MaxAddr c else 0)

/-- The shard vector handed to the Reed-Solomon encoder: the split digits
followed by the `rsnum` zero-initialized parity slots, each as its byte value. -/
def packShards (c : Codec) (a : Nat) (ef sf : Bool) : List Nat :=
  ((splitDigits (maxvals c.mdsz) (c.blknum - c.rsnum) (adjAddr c a ef sf)).1
    ++ List.replicate c.rsnum 0).map (fun d => d % 256)

/-- `calculateMdBlocks(address, ef, sf)` with the external Reed-Solomon encoder
abstracted as `ecEnc` (it receives every shard as its single byte value and
returns the full shard vector, trailing `rsnum` shards filled in). -/
def calculateMdBlocks (ecEnc : List Nat → Option (List Nat)) (c : Codec)
    (address : Nat) (ef sf : Bool) : CalcResult :=
  if address > MaxAddr c then .errAddrTooBig
  else if (splitDigits (maxvals c.mdsz) (c.blknum - c.rsnum) (adjAddr c address ef sf)).2 ≠ 0 then
    .panicAddrNotZero
  else if c.mdsz * 2 > 8 then .panicMdTooBig
  else
    match ecEnc (packShards c address ef sf) with
    | none => .errRS
    | some mdb => .ok mdb

/-- Lines 389-408 of `decode`: fold the first `blknum - rsnum` metadata blocks
back into one value, then test the `sf` threshold before the `ef` threshold.
Returns `(address, ef, sf)`. -/
def unpackDigits (c : Codec) (mdblk : List Nat) : Nat × Bool × Bool :=
  let md := foldDigits (maxvals c.mdsz) (mdblk.take (c.blknum - c.rsnum))
  if md ≥ 2 * MaxAddr c then
    if md - 2 * MaxAddr c ≥ MaxAddr c then
      (md - 2 * MaxAddr c - MaxAddr c, true, true)
    else (md - 2 * MaxAddr c, false, true)
  else
    if md ≥ MaxAddr c then (md - MaxAddr c, true, false)
    else (md, false, false)

/-- Go `^b` on a byte value. -/
def bnot (b : Nat) : Nat := 255 - b % 256

/-- Per-block value construction in `encode`: combine the 4 payload bytes
little-endian, shift left by one and set the parity bit so that the result has
even population count. The `% 256` embeds the Go `byte` type. -/
def encodeBlockVal (buf : List Nat) : Nat :=
  let v := buf.getD 0 0 % 256 + (buf.getD 1 0 % 256) * 2 ^ 8
    + (buf.getD 2 0 % 256) * 2 ^ 16 + (buf.getD 3 0 % 256) * 2 ^ 24
  if onesCount64 (2 * v) % 2 ≠ 0 then 2 * v + 1 else 2 * v

/-- Per-block value checking in `decode` (lines 323-335): extract the parity
bit and the value, keep the block only when the population count matches, and
bit-complement the 64-bit value when decoding the flipped variant. `w % 2 ^ 64`
embeds the Go `uint64` type of the decoded value. -/
def decodeBlockVal (flip : Bool) (w : Nat) : Option (List Nat) :=
  let pbit := w % 2 ^ 64 % 2
  let v := w % 2 ^ 64 / 2
  if (onesCount64 v + pbit) % 2 = 0 then
    let v2 := if flip then 2 ^ 64 - 1 - v else v
    some [v2 % 2 ^ 8, v2 / 2 ^ 8 % 2 ^ 8, v2 / 2 ^ 16 % 2 ^ 8, v2 / 2 ^ 24 % 2 ^ 8]
  else none

/-- Error values returned by `decode`/`Decode`; `other` stands for the opaque
errors an external collaborator (the recovery routine) may produce. -/
inductive Err where
  | primer
  | metadata
  | other (code : Nat)
deriving DecidableEq, Repr

/-- The external collaborators, abstracted at their call interfaces:
`l0dec`/`l0enc` are `l0.Decode`/`l0.Encode` (criteria applied internally),
`find` is `oligo.Find` with the fixed 3-error tolerance, `ecEnc`/`ecVerify`
the Reed-Solomon coder (`ecVerify` returns the verification flag and whether
an error value was returned), `tryRecover` the recovery routine, and `gcHigh`
the predicate `oligo.GCcontent(o) > 0.6`. -/
structure Ext where
  l0dec : Oligo → Oligo → Option Nat
  l0enc : Oligo → Nat → Nat → Option Oligo
  find : Oligo → Oligo → Int × Nat
  ecEnc : List Nat → Option (List Nat)
  ecVerify : List Nat → Bool × Bool
  tryRecover : Oligo → Oligo → Oligo → Bool → List (Option (List Nat)) × List Nat × Option Err
  gcHigh : Oligo → Bool

/-- State carried through the per-block decode loop: the remaining stream, the
rolling 4-symbol decode context, the data blocks parsed so far, the metadata
block vector and the metadata-intact flag. -/
structure PSt where
  ol : Oligo
  pfx : Oligo
  data : List (Option (List Nat))
  mdblk : List Nat
  mdok : Bool
deriving DecidableEq, Repr

/-- Metadata segment width for block `i`: `5` for the trailing `rsnum` blocks
(they must hold a byte), `mdsz` otherwise. -/
def mdSzAt (c : Codec) (i : Nat) : Nat :=
  if i ≥ c.blknum - c.rsnum then 5 else c.mdsz

/-- Data-segment handling for one block of `decode`: a short stream, an `l0`
decode failure or a parity mismatch yields an absent block. -/
def blockOut (E : Ext) (flip : Bool) (ol pfx : Oligo) : Option (List Nat) :=
  if ol.length < 17 then none
  else
    match E.l0dec pfx (oslice ol 0 17) with
    | none => none
    | some v => decodeBlockVal flip v

/-- Metadata-segment handling for one block of `decode`: a short segment or a
decode failure clears `mdok`; otherwise digit `i` is stored. The decode context
is the data segment's trailing symbols `ol[13:17]`. -/
def mdStep (E : Ext) (c : Codec) (ol : Oligo) (mdblk : List Nat) (mdok : Bool)
    (i : Nat) : List Nat × Bool :=
  let mdol := oslice ol 17 (17 + mdSzAt c i)
  if mdol.length ≠ mdSzAt c i then (mdblk, false)
  else
    match E.l0dec (oslice ol 13 17) mdol with
    | none => (mdblk, false)
    | some m => (mdblk.set i m, mdok)

/-- One iteration of the per-block decode loop (lines 309-358). -/
def parseStep (E : Ext) (c : Codec) (flip : Bool) (st : PSt) (i : Nat) : PSt :=
  { ol := oslice st.ol (17 + mdSzAt c i) 0
    pfx := oslice st.ol (13 + mdSzAt c i) (17 + mdSzAt c i)
    data := st.data ++ [blockOut E flip st.ol st.pfx]
    mdblk := (mdStep E c st.ol st.mdblk st.mdok i).1
    mdok := (mdStep E c st.ol st.mdblk st.mdok i).2 }

/-- The whole per-block decode loop over blocks `0 .. blknum-1`. -/
def parseBlocks (E : Ext) (c : Codec) (flip : Bool) (body pfx0 : Oligo) : PSt :=
  (List.range c.blknum).foldl (parseStep E c flip)
    ⟨body, pfx0, [], List.replicate c.blknum 0, true⟩

/-- Result of `decode`/`Decode`: the same named return values as the Go code. -/
structure DecRes where
  address : Nat
  ef : Bool
  sf : Bool
  data : List (Option (List Nat))
  err : Option Err
deriving DecidableEq, Repr

/-- Tail of `decode` once the metadata digits are settled: unpack them into
`(address, ef, sf)` and return with the data vector. -/
def finishDecode (c : Codec) (mdblk : List Nat) (data : List (Option (List Nat))) : DecRes :=
  ⟨(unpackDigits c mdblk).1, (unpackDigits c mdblk).2.1, (unpackDigits c mdblk).2.2,
    data, none⟩

/-- Lines 360-409 of `decode`: verify the metadata digits, on failure either
report `Emetadata` or defer to the recovery routine, then unpack. -/
def afterBlocks (E : Ext) (c : Codec) (rcv flip : Bool) (p5 p3 sol : Oligo)
    (st : PSt) : DecRes :=
  let ver := E.ecVerify (st.mdblk.map (fun d => d % 256))
  let mdok := if st.mdok then ver.1 && !ver.2 else false
  if mdok then finishDecode c st.mdblk st.data
  else if rcv = false then ⟨0, false, false, st.data, some Err.metadata⟩
  else
    match E.tryRecover p5 p3 sol flip with
    | (data2, _, some e) => ⟨0, false, false, data2, some e⟩
    | (data2, mdblk2, none) => finishDecode c mdblk2 data2

/-- `decode` (lines 287-410): strip the primers, parse the blocks with the 5'
primer's last 4 symbols as the initial context, then handle the metadata. -/
def decode (E : Ext) (c : Codec) (p5 p3 ol : Oligo) (flip rcv : Bool) : DecRes :=
  if (E.find ol p5).1 ≠ 0 then ⟨0, false, false, [], some Err.primer⟩
  else if (E.find ol p3).1 < 0
      ∨ (E.find ol p3).1 + ((E.find ol p3).2 : Int) ≠ (ol.length : Int) then
    ⟨0, false, false, [], some Err.primer⟩
  else
    afterBlocks E c rcv flip p5 p3
      (oslice ol ((E.find ol p5).1.toNat + (E.find ol p5).2) (E.find ol p3).1.toNat)
      (parseBlocks E c flip
        (oslice ol ((E.find ol p5).1.toNat + (E.find ol p5).2) (E.find ol p3).1.toNat)
        (oslice p5 (p5.length - 4) p5.length))

/-- `Decode` (lines 273-284): run with polarity hypothesis `false`; when that
succeeds and reports `sf`, re-run once flipped and return that verbatim. -/
def Decode (E : Ext) (c : Codec) (p5 p3 ol : Oligo) (rcv : Bool) :
    Nat × Bool × List (Option (List Nat)) × Option Err :=
  if (decode E c p5 p3 ol false rcv).err ≠ none
      ∨ (decode E c p5 p3 ol false rcv).sf = false then
    ((decode E c p5 p3 ol false rcv).address, (decode E c p5 p3 ol false rcv).ef,
      (decode E c p5 p3 ol false rcv).data, (decode E c p5 p3 ol false rcv).err)
  else
    ((decode E c p5 p3 ol true rcv).address, (decode E c p5 p3 ol true rcv).ef,
      (decode E c p5 p3 ol true rcv).data, (decode E c p5 p3 ol true rcv).err)

/-- Recoverable errors returned by `encode`/`Encode`. -/
inductive EncErr where
  | blockNum
  | blockSize
  | primer5
  | addrTooBig
  | rs
  | l0e
deriving DecidableEq, Repr

/-- The abort (`panic`) conditions reachable from `encode`/`Encode`. -/
inductive PanicKind where
  | addrNotZero
  | mdTooBig
  | bothHighGC
deriving DecidableEq, Repr

/-- Outcome of `encode`/`Encode`: an oligo, a Go `(o, err)` pair with non-nil
error, or an abort. -/
inductive EncOut where
  | ok : Oligo → EncOut
  | fail : Option Oligo → EncErr → EncOut
  | panicked : PanicKind → EncOut
deriving DecidableEq, Repr

/-- One iteration of the per-block encode loop: append the 17-symbol data
segment (context: trailing 4 emitted symbols), then the metadata segment
(context: trailing 4 symbols of the just-emitted data segment). -/
def encodeLoopStep (E : Ext) (c : Codec) (mdb : List Nat) (data : List (List Nat))
    (acc : Option Oligo) (i : Nat) : Option Oligo :=
  match acc with
  | none => none
  | some o =>
    match E.l0enc (oslice o (o.length - 4) o.length) (encodeBlockVal (data.getD i [])) 17 with
    | none => none
    | some b =>
      match E.l0enc (oslice (o ++ b) ((o ++ b).length - 4) 0) (mdb.getD i 0) (mdSzAt c i) with
      | none => none
      | some b2 => some (o ++ b ++ b2)

/-- `encode` (lines 124-214): validate the payload shape and the 5' primer,
compute the metadata blocks, bit-complement the payload into fresh buffers when
`sf`, then emit all blocks between the primers. -/
def encodeInner (E : Ext) (c : Codec) (p5 p3 : Oligo) (address : Nat) (ef sf : Bool)
    (data : List (List Nat)) : EncOut :=
  if data.length ≠ c.blknum then .fail none .blockNum
  else if data.any (fun b => b.length ≠ 4) then .fail none .blockSize
  else if p5.length < 4 then .fail none .primer5
  else
    match calculateMdBlocks E.ecEnc c address ef sf with
    | .errAddrTooBig => .fail none .addrTooBig
    | .panicAddrNotZero => .panicked .addrNotZero
    | .panicMdTooBig => .panicked .mdTooBig
    | .errRS => .fail none .rs
    | .ok mdb =>
      match (List.range c.blknum).foldl
          (encodeLoopStep E c mdb (if sf then data.map (List.map bnot) else data))
          (some p5) with
      | none => .fail none .l0e
      | some o => .ok (o ++ p3)

/-- `Encode` (lines 102-119): encode with `sf = false`; if the result's GC
content exceeds 0.6, retry with `sf = true`; if the retry also exceeds 0.6,
abort. On a failed retry the first oligo is returned with the retry's error. -/
def Encode (E : Ext) (c : Codec) (p5 p3 : Oligo) (address : Nat) (ef : Bool)
    (data : List (List Nat)) : EncOut :=
  match encodeInner E c p5 p3 address ef false data with
  | .ok o =>
    if E.gcHigh o then
      match encodeInner E c p5 p3 address ef true data with
      | .ok o1 => if E.gcHigh o1 then .panicked .bothHighGC else .ok o1
      | .fail _ e => .fail (some o) e
      | .panicked k => .panicked k
    else .ok o
  | r => r

/-- Byte-buffer heap: buffers are stored by index, pointers are indices. Used
to state the frame property of the payload-negation step. -/
abbrev Store := List (List Nat)

/-- Heap-passing embedding of lines 149-158 of `encode`: for each payload block
pointer allocate a fresh buffer holding the bit-complemented bytes and return
the new pointers; existing buffers are never written. -/
def negateBlocks : Store → List Nat → Store × List Nat
  | st, [] => (st, [])
  | st, p :: ps =>
    ((negateBlocks (st ++ [(st.getD p []).map bnot]) ps).1,
      st.length :: (negateBlocks (st ++ [(st.getD p []).map bnot]) ps).2)

/-- Lines 148-160 of `encode` as a store transformer: with `sf = false` the
payload buffers are passed through untouched, with `sf = true` complemented
copies are built in freshly allocated buffers. -/
def encodeData (st : Store) (ptrs : List Nat) (sf : Bool) : Store × List Nat :=
  if sf then negateBlocks st ptrs else (st, ptrs)


/-! ### Arithmetic lemmas about the bit-count and digit-split loops -/

theorem onesCountN_two_mul (k v : Nat) : onesCountN (k + 1) (2 * v) = onesCountN k v := by
  simp [onesCountN, Nat.mul_mod_right, Nat.mul_div_cancel_left v (by omega : 0 < 2)]

theorem onesCountN_two_mul_add_one (k v : Nat) :
    onesCountN (k + 1) (2 * v + 1) = onesCountN k v + 1 := by
  have h1 : (2 * v + 1) % 2 = 1 := by omega
  have h2 : (2 * v + 1) / 2 = v := by omega
  simp [onesCountN, h1, h2]
  omega

theorem onesCountN_succ_of_lt (k : Nat) : ∀ v, v < 2 ^ k → onesCountN (k + 1) v = onesCountN k v := by
  induction k with
  | zero =>
    intro v hv
    have : v = 0 := by simpa using hv
    simp [this, onesCountN]
  | succ k ih =>
    intro v hv
    have hdiv : v / 2 < 2 ^ k := by
      rw [Nat.div_lt_iff_lt_mul (by omega : 0 < 2)]
      rw [Nat.pow_succ] at hv
      omega
    show v % 2 + onesCountN (k + 1) (v / 2) = v % 2 + onesCountN k (v / 2)
    rw [ih (v / 2) hdiv]

theorem splitDigits_snd (base : Nat) : ∀ n v, (splitDigits base n v).2 = v / base ^ n := by
  intro n
  induction n with
  | zero => intro v; simp [splitDigits]
  | succ n ih =>
    intro v
    show (splitDigits base n (v / base)).2 = _
    rw [ih (v / base), Nat.div_div_eq_div_mul, ← Nat.pow_succ']

theorem splitDigits_length (base : Nat) : ∀ n v, (splitDigits base n v).1.length = n := by
  intro n
  induction n with
  | zero => intro v; simp [splitDigits]
  | succ n ih => intro v; simp [splitDigits, ih]

theorem splitDigits_lt (base : Nat) (hb : 0 < base) :
    ∀ n v, ∀ d ∈ (splitDigits base n v).1, d < base := by
  intro n
  induction n with
  | zero => intro v d hd; simp [splitDigits] at hd
  | succ n ih =>
    intro v d hd
    simp only [splitDigits, List.mem_append, List.mem_singleton] at hd
    rcases hd with hd | hd
    · exact ih (v / base) d hd
    · subst hd; exact Nat.mod_lt _ hb

theorem foldDigits_append (base : Nat) (ds : List Nat) (d : Nat) :
    foldDigits base (ds ++ [d]) = foldDigits base ds * base + d := by
  simp [foldDigits, List.foldl_append]

theorem foldDigits_splitDigits (base : Nat) :
    ∀ n v, v < base ^ n → foldDigits base (splitDigits base n v).1 = v := by
  intro n
  induction n with
  | zero =>
    intro v hv
    have : v = 0 := by simpa using hv
    simp [this, splitDigits, foldDigits]
  | succ n ih =>
    intro v hv
    have hb : 0 < base := by
      rcases Nat.eq_zero_or_pos base with h | h
      · subst h; simp at hv
      · exact h
    have hdiv : v / base < base ^ n := by
      rw [Nat.div_lt_iff_lt_mul hb, ← Nat.pow_succ]
      exact hv
    show foldDigits base ((splitDigits base n (v / base)).1 ++ [v % base]) = v
    rw [foldDigits_append, ih (v / base) hdiv]
    have h1 := Nat.div_add_mod v base
    have h2 : v / base * base = base * (v / base) := Nat.mul_comm _ _
    omega
theorem onesCount64_two_mul (v : Nat) : onesCount64 (2 * v) = onesCountN 63 v :=
  onesCountN_two_mul 63 v

theorem onesCount64_two_mul_add_one (v : Nat) :
    onesCount64 (2 * v + 1) = onesCountN 63 v + 1 :=
  onesCountN_two_mul_add_one 63 v

theorem onesCountN_63_64 (v : Nat) (h : v < 2 ^ 63) : onesCountN 63 v = onesCount64 v :=
  (onesCountN_succ_of_lt 63 v h).symm

/-- The little-endian byte combination inside `encodeBlockVal` is below `2^32`. -/
theorem combineBytes_lt (buf : List Nat) :
    buf.getD 0 0 % 256 + (buf.getD 1 0 % 256) * 2 ^ 8
      + (buf.getD 2 0 % 256) * 2 ^ 16 + (buf.getD 3 0 % 256) * 2 ^ 24 < 2 ^ 32 := by
  have h0 : buf.getD 0 0 % 256 < 256 := Nat.mod_lt _ (by omega)
  have h1 : buf.getD 1 0 % 256 < 256 := Nat.mod_lt _ (by omega)
  have h2 : buf.getD 2 0 % 256 < 256 := Nat.mod_lt _ (by omega)
  have h3 : buf.getD 3 0 % 256 < 256 := Nat.mod_lt _ (by omega)
  omega

/-- The encoded 33-bit block value always has even population count. -/
theorem encodeBlockVal_parity (buf : List Nat) :
    onesCount64 (encodeBlockVal buf) % 2 = 0 := by
  have hlt := combineBytes_lt buf
  simp only [encodeBlockVal]
  split
  · next h =>
    rw [onesCount64_two_mul_add_one]
    rw [onesCount64_two_mul] at h
    omega
  · next h =>
    rw [onesCount64_two_mul] at h ⊢
    omega

theorem encodeBlockVal_lt (buf : List Nat) : encodeBlockVal buf < 2 ^ 64 := by
  have hlt := combineBytes_lt buf
  simp only [encodeBlockVal]
  split <;> omega

theorem encodeBlockVal_div_two (buf : List Nat) :
    encodeBlockVal buf / 2 = buf.getD 0 0 % 256 + (buf.getD 1 0 % 256) * 2 ^ 8
      + (buf.getD 2 0 % 256) * 2 ^ 16 + (buf.getD 3 0 % 256) * 2 ^ 24 := by
  simp only [encodeBlockVal]
  split <;> omega

/-- The decoder's parity test accepts every value built by the encoder. -/
theorem encodeBlockVal_check (buf : List Nat) :
    (onesCount64 (encodeBlockVal buf / 2) + encodeBlockVal buf % 2) % 2 = 0 := by
  have hlt := combineBytes_lt buf
  simp only [encodeBlockVal]
  set v := buf.getD 0 0 % 256 + (buf.getD 1 0 % 256) * 2 ^ 8
    + (buf.getD 2 0 % 256) * 2 ^ 16 + (buf.getD 3 0 % 256) * 2 ^ 24 with hv
  have h63 : v < 2 ^ 63 := by omega
  split
  · next h =>
    rw [onesCount64_two_mul] at h
    have hd : (2 * v + 1) / 2 = v := by omega
    have hm : (2 * v + 1) % 2 = 1 := by omega
    rw [hd, hm, ← onesCountN_63_64 _ h63]
    omega
  · next h =>
    rw [onesCount64_two_mul] at h
    have hd : 2 * v / 2 = v := by omega
    have hm : 2 * v % 2 = 0 := by omega
    rw [hd, hm, ← onesCountN_63_64 _ h63]
    omega

/-- Evaluation of `decodeBlockVal` on an in-range value passing the parity test. -/
theorem decodeBlockVal_of_parity (flip : Bool) (w : Nat) (hw : w < 2 ^ 64)
    (hpar : (onesCount64 (w / 2) + w % 2) % 2 = 0) :
    decodeBlockVal flip w =
      some [(if flip then 2 ^ 64 - 1 - w / 2 else w / 2) % 2 ^ 8,
        (if flip then 2 ^ 64 - 1 - w / 2 else w / 2) / 2 ^ 8 % 2 ^ 8,
        (if flip then 2 ^ 64 - 1 - w / 2 else w / 2) / 2 ^ 16 % 2 ^ 8,
        (if flip then 2 ^ 64 - 1 - w / 2 else w / 2) / 2 ^ 24 % 2 ^ 8] := by
  have hmod : w % 2 ^ 64 = w := Nat.mod_eq_of_lt hw
  simp only [decodeBlockVal, hmod]
  rw [if_pos hpar]

/-- C5: for every 4-byte block the encoder combines the bytes little-endian,
shifts left by one and sets the parity bit so the 33-bit quantity has even
population count; the decoder extracts the parity bit and value and
materializes the block exactly when `popcount(value) + parity` is even,
bit-complementing the value for the polarity-inverted variant. -/
theorem C5_block_parity (b0 b1 b2 b3 : Nat)
    (h0 : b0 < 256) (h1 : b1 < 256) (h2 : b2 < 256) (h3 : b3 < 256) :
    onesCount64 (encodeBlockVal [b0, b1, b2, b3]) % 2 = 0
    ∧ decodeBlockVal false (encodeBlockVal [b0, b1, b2, b3]) = some [b0, b1, b2, b3]
    ∧ decodeBlockVal true (encodeBlockVal [bnot b0, bnot b1, bnot b2, bnot b3])
        = some [b0, b1, b2, b3]
    ∧ (∀ flip w, (decodeBlockVal flip w).isSome = true
        ↔ (onesCount64 (w % 2 ^ 64 / 2) + w % 2 ^ 64 % 2) % 2 = 0) := by
  refine ⟨encodeBlockVal_parity _, ?_, ?_, ?_⟩
  · rw [decodeBlockVal_of_parity false _ (encodeBlockVal_lt _) (encodeBlockVal_check _),
      encodeBlockVal_div_two]
    simp only [List.getD_cons_zero, List.getD_cons_succ, Bool.false_eq_true, if_false,
      Option.some.injEq, List.cons.injEq, and_true]
    refine ⟨?_, ?_, ?_, ?_⟩ <;> omega
  · rw [decodeBlockVal_of_parity true _ (encodeBlockVal_lt _) (encodeBlockVal_check _),
      encodeBlockVal_div_two]
    have e0 : bnot b0 % 256 = 255 - b0 := by simp [bnot]; omega
    have e1 : bnot b1 % 256 = 255 - b1 := by simp [bnot]; omega
    have e2 : bnot b2 % 256 = 255 - b2 := by simp [bnot]; omega
    have e3 : bnot b3 % 256 = 255 - b3 := by simp [bnot]; omega
    simp only [List.getD_cons_zero, List.getD_cons_succ, e0, e1, e2, e3, if_true,
      Option.some.injEq, List.cons.injEq, and_true]
    refine ⟨?_, ?_, ?_, ?_⟩ <;> omega
  · intro flip w
    simp only [decodeBlockVal]
    split
    · next h => exact iff_of_true rfl h
    · next h => exact iff_of_false (by simp) h

/-- Witness for C5 at the block `[1, 2, 3, 4]`. -/
theorem C5_block_parity_witness :
    onesCount64 (encodeBlockVal [1, 2, 3, 4]) % 2 = 0
    ∧ decodeBlockVal false (encodeBlockVal [1, 2, 3, 4]) = some [1, 2, 3, 4]
    ∧ decodeBlockVal true (encodeBlockVal [bnot 1, bnot 2, bnot 3, bnot 4])
        = some [1, 2, 3, 4]
    ∧ ((decodeBlockVal true 6).isSome = true
        ↔ (onesCount64 (6 % 2 ^ 64 / 2) + 6 % 2 ^ 64 % 2) % 2 = 0) := by
  have h := C5_block_parity 1 2 3 4 (by decide) (by decide) (by decide) (by decide)
  exact ⟨h.1, h.2.1, h.2.2.1, h.2.2.2 true 6⟩

/-- C2 (the code contradicts its own assertion): with the valid configuration
B=3, M=4, R=1 the range guard admits `address = MaxAddr = 8649`, and with both
flags set the adjusted value is `4 * MaxAddr = 186 ^ 2`, whose 2-digit base-186
split leaves residual 1, so the `address not zero` abort fires on an input the
code accepts. -/
theorem C2_residual_panic_reachable :
    NewCodec 3 4 1 = some ⟨3, 1, 4⟩
    ∧ MaxAddr ⟨3, 1, 4⟩ = 8649
    ∧ calculateMdBlocks (fun s => some s) ⟨3, 1, 4⟩ 8649 true true
        = CalcResult.panicAddrNotZero := by
  refine ⟨by decide, by decide, by decide⟩

/-- C1 counterexample: in the valid configuration B=8, M=3, R=2 the address
`MaxAddr` itself is accepted by pack, but unpacking its digit vector returns
`(0, true, false)` instead of `(MaxAddr, false, false)`. -/
theorem C1_round_trip_cex :
    NewCodec 8 3 2 = some ⟨8, 2, 3⟩
    ∧ 2694803832 ≤ MaxAddr ⟨8, 2, 3⟩
    ∧ calculateMdBlocks (fun s => some s) ⟨8, 2, 3⟩ 2694803832 false false
        = CalcResult.ok [11, 35, 11, 35, 11, 35, 0, 0]
    ∧ unpackDigits ⟨8, 2, 3⟩ [11, 35, 11, 35, 11, 35, 0, 0] = (0, true, false)
    ∧ ((0 : Nat), true, false) ≠ ((2694803832 : Nat), false, false) := by
  refine ⟨by decide, by decide, by decide, by decide, by decide⟩

/-- The flag-adjusted value stays below `base ^ mdnum` when the address is
strictly below `MaxAddr`. -/
theorem adjusted_lt (c : Codec) (a : Nat) (ef sf : Bool) (h : a < MaxAddr c) :
    adjAddr c a ef sf < maxvals c.mdsz ^ (c.blknum - c.rsnum) := by
  have h4 : MaxAddr c * 4 ≤ maxvals c.mdsz ^ (c.blknum - c.rsnum) :=
    Nat.div_mul_le_self _ 4
  unfold adjAddr
  cases sf <;> cases ef <;>
    simp only [eq_self_iff_true, if_true, Bool.false_eq_true, if_false] <;> omega

/-- Unpacking inverts the flag adjustment when the address is strictly below
`MaxAddr`. -/
theorem unpackDigits_adjusted (c : Codec) (a : Nat) (ef sf : Bool) (h : a < MaxAddr c)
    (l : List Nat)
    (hf : foldDigits (maxvals c.mdsz) (l.take (c.blknum - c.rsnum)) = adjAddr c a ef sf) :
    unpackDigits c l = (a, ef, sf) := by
  simp only [unpackDigits, hf, adjAddr]
  cases sf <;> cases ef <;>
    simp only [eq_self_iff_true, if_true, Bool.false_eq_true, if_false]
  · rw [if_neg (by omega), if_neg (by omega)]
    exact congrArg₂ Prod.mk (by omega) rfl
  · rw [if_neg (by omega), if_pos (by omega)]
    exact congrArg₂ Prod.mk (by omega) rfl
  · rw [if_pos (by omega), if_neg (by omega)]
    exact congrArg₂ Prod.mk (by omega) rfl
  · rw [if_pos (by omega), if_pos (by omega)]
    exact congrArg₂ Prod.mk (by omega) rfl

/-- Lists of values below 256 are untouched by the byte conversion. -/
theorem map_mod256_eq (l : List Nat) (h : ∀ d ∈ l, d % 256 = d) :
    l.map (fun d => d % 256) = l := by
  induction l with
  | nil => rfl
  | cons a l ih =>
    simp only [List.map_cons, h a (by simp), List.cons.injEq, true_and]
    exact ih fun d hd => h d (by simp [hd])

theorem take_append_of_length {α : Type} (ds rest : List α) (n : Nat)
    (h : ds.length = n) : (ds ++ rest).take n = ds := by
  subst h
  exact List.take_left ds rest

/-- The first `mdnum` shards handed to the Reed-Solomon encoder are exactly the
split digits, provided each digit fits a byte. -/
theorem packShards_take (c : Codec) (a : Nat) (ef sf : Bool)
    (hbyte : ∀ d ∈ (splitDigits (maxvals c.mdsz) (c.blknum - c.rsnum) (adjAddr c a ef sf)).1,
      d % 256 = d) :
    (packShards c a ef sf).take (c.blknum - c.rsnum)
      = (splitDigits (maxvals c.mdsz) (c.blknum - c.rsnum) (adjAddr c a ef sf)).1 := by
  unfold packShards
  rw [List.map_append, map_mod256_eq _ hbyte]
  exact take_append_of_length _ _ _ (splitDigits_length _ _ _)

/-- With a mdsz = 5 configuration `calculateMdBlocks` never returns a digit
vector. -/
theorem calc_M5_ne_ok (e : List Nat → Option (List Nat)) (c : Codec) (a : Nat)
    (ef sf : Bool) (h5 : c.mdsz = 5) (mdb : List Nat) :
    calculateMdBlocks e c a ef sf ≠ CalcResult.ok mdb := by
  simp only [calculateMdBlocks]
  by_cases h1 : a > MaxAddr c
  · rw [if_pos h1]; simp
  · rw [if_neg h1]
    by_cases h2 : (splitDigits (maxvals c.mdsz) (c.blknum - c.rsnum) (adjAddr c a ef sf)).2 ≠ 0
    · rw [if_pos h2]; simp
    · rw [if_neg h2, if_pos (by omega : c.mdsz * 2 > 8)]
      simp

/-- C1 (amended: `a < MaxAddr` instead of `a ≤ MaxAddr`): for every codec
produced by `NewCodec`, any Reed-Solomon encoder that leaves the data shards
unchanged, and every address strictly below `MaxAddr`, unpacking the digit
vector produced by packing `(a, ef, sf)` returns exactly `(a, ef, sf)`. -/
theorem C1_pack_unpack_round_trip (B M R : Nat) (c : Codec)
    (hc : NewCodec B M R = some c)
    (eEnc : List Nat → Option (List Nat))
    (hpres : ∀ s o, eEnc s = some o
      → o.take (c.blknum - c.rsnum) = s.take (c.blknum - c.rsnum))
    (a : Nat) (ha : a < MaxAddr c) (ef sf : Bool) (mdb : List Nat)
    (hok : calculateMdBlocks eEnc c a ef sf = CalcResult.ok mdb) :
    unpackDigits c mdb = (a, ef, sf) := by
  have hM : 3 ≤ c.mdsz ∧ c.mdsz ≤ 5 := by
    simp only [NewCodec] at hc
    split at hc
    · exact absurd hc (by simp)
    · next hcond =>
      injection hc with hc
      subst hc
      simp only [not_or, not_lt] at hcond
      exact ⟨hcond.1, hcond.2⟩
  rcases Nat.lt_or_ge c.mdsz 5 with h5 | h5
  · -- mdsz ∈ {3, 4}: the base is 47 or 186, so every digit fits a byte
    have hbase : maxvals c.mdsz = 47 ∨ maxvals c.mdsz = 186 := by
      have h3 : c.mdsz = 3 ∨ c.mdsz = 4 := by omega
      rcases h3 with h3 | h3 <;> simp [maxvals, h3]
    have hbpos : 0 < maxvals c.mdsz := by rcases hbase with hb | hb <;> omega
    have hadj := adjusted_lt c a ef sf ha
    have hbyte : ∀ d ∈ (splitDigits (maxvals c.mdsz) (c.blknum - c.rsnum)
        (adjAddr c a ef sf)).1, d % 256 = d := by
      intro d hd
      have := splitDigits_lt (maxvals c.mdsz) hbpos (c.blknum - c.rsnum)
        (adjAddr c a ef sf) d hd
      exact Nat.mod_eq_of_lt (by omega)
    simp only [calculateMdBlocks] at hok
    rw [if_neg (by omega)] at hok
    rw [if_neg (by
      simp only [ne_eq, splitDigits_snd, not_not]
      exact Nat.div_eq_of_lt hadj)] at hok
    rw [if_neg (by omega)] at hok
    split at hok
    · exact absurd hok (by simp)
    · next l heq =>
      injection hok with hok
      subst hok
      have htake := hpres _ _ heq
      rw [packShards_take c a ef sf hbyte] at htake
      refine unpackDigits_adjusted c a ef sf ha l ?_
      rw [htake]
      exact foldDigits_splitDigits _ _ _ hadj
  · -- mdsz = 5: pack never returns a digit vector
    exact absurd hok (calc_M5_ne_ok eEnc c a ef sf (by omega) mdb)

/-- Witness for C1 at the concrete configuration B=8, M=3, R=2, address 12345,
`ef = true`, `sf = false`. -/
theorem C1_round_trip_witness :
    unpackDigits ⟨8, 2, 3⟩ [11, 35, 11, 40, 39, 19, 0, 0] = (12345, true, false) :=
  C1_pack_unpack_round_trip 8 3 2 ⟨8, 2, 3⟩ rfl (fun s => some s)
    (fun s o h => by cases h; rfl)
    12345 (by decide) true false [11, 35, 11, 40, 39, 19, 0, 0] (by decide)

/-- Inversion of a successful `NewCodec` call. -/
theorem NewCodec_some (B M R : Nat) (c : Codec) (hc : NewCodec B M R = some c) :
    c = ⟨B, R, M⟩ ∧ 3 ≤ M ∧ M ≤ 5 := by
  simp only [NewCodec] at hc
  split at hc
  · exact absurd hc (by simp)
  · next hcond =>
    injection hc with hc
    simp only [not_or, not_lt] at hcond
    exact ⟨hc.symm, hcond.1, hcond.2⟩

theorem adjAddr_le (c : Codec) (a : Nat) (ef sf : Bool) :
    adjAddr c a ef sf ≤ a + 3 * MaxAddr c := by
  unfold adjAddr
  cases sf <;> cases ef <;>
    simp only [eq_self_iff_true, if_true, Bool.false_eq_true, if_false] <;> omega

/-- For an odd base (as with mdsz = 5, base 733) the adjusted value of any
accepted address stays below `base ^ mdnum`. -/
theorem adjusted_lt_of_mod (c : Codec) (a : Nat) (ef sf : Bool) (ha : a ≤ MaxAddr c)
    (hmod : maxvals c.mdsz ^ (c.blknum - c.rsnum) % 4 = 1) :
    adjAddr c a ef sf < maxvals c.mdsz ^ (c.blknum - c.rsnum) := by
  have hle := adjAddr_le c a ef sf
  have hdm := Nat.div_add_mod (maxvals c.mdsz ^ (c.blknum - c.rsnum)) 4
  have hM : MaxAddr c = maxvals c.mdsz ^ (c.blknum - c.rsnum) / 4 := rfl
  omega

/-- With a mdsz = 5 configuration `encodeInner` never returns an oligo. -/
theorem encodeInner_ne_ok_of_M5 (E : Ext) (c : Codec) (p5 p3 : Oligo) (a : Nat)
    (ef sf : Bool) (data : List (List Nat)) (h5 : c.mdsz = 5) (o : Oligo) :
    encodeInner E c p5 p3 a ef sf data ≠ EncOut.ok o := by
  simp only [encodeInner]
  by_cases h1 : data.length ≠ c.blknum
  · rw [if_pos h1]; simp
  · rw [if_neg h1]
    by_cases h2 : data.any (fun b => b.length ≠ 4) = true
    · rw [if_pos h2]; simp
    · rw [if_neg h2]
      by_cases h3 : p5.length < 4
      · rw [if_pos h3]; simp
      · rw [if_neg h3]
        cases hcalc : calculateMdBlocks E.ecEnc c a ef sf with
        | ok l => exact absurd hcalc (calc_M5_ne_ok E.ecEnc c a ef sf h5 l)
        | errAddrTooBig => simp
        | errRS => simp
        | panicAddrNotZero => simp
        | panicMdTooBig => simp

/-- C3: codec construction succeeds exactly for metadata widths 3..5, the
digit-packing abort guard fires exactly when `2*M > 8`: every `M = 5` codec
aborts with the oversized-metadata fault on every accepted address and
`Encode` can never return an oligo, while for `M ∈ {3,4}` that guard is
unreachable. -/
theorem C3_mdsz_guard (B M R : Nat) :
    ((NewCodec B M R).isSome ↔ (3 ≤ M ∧ M ≤ 5))
    ∧ (∀ c, NewCodec B M R = some c →
        (M = 5 → ∀ e a (ef sf : Bool), a ≤ MaxAddr c →
          calculateMdBlocks e c a ef sf = CalcResult.panicMdTooBig)
        ∧ (M ≤ 4 → ∀ e a (ef sf : Bool),
          calculateMdBlocks e c a ef sf ≠ CalcResult.panicMdTooBig)
        ∧ (M = 5 → ∀ E p5 p3 a (ef : Bool) data o,
          Encode E c p5 p3 a ef data ≠ EncOut.ok o)) := by
  constructor
  · simp only [NewCodec]
    split
    · next h => simp; omega
    · next h => simp only [Option.isSome_some, true_iff]; omega
  · intro c hc
    obtain ⟨hceq, hM3, hM5⟩ := NewCodec_some B M R c hc
    refine ⟨?_, ?_, ?_⟩
    · intro h5 e a ef sf ha
      have hmdsz : c.mdsz = 5 := by rw [hceq, h5]
      have hmod : maxvals c.mdsz ^ (c.blknum - c.rsnum) % 4 = 1 := by
        rw [hmdsz]
        show 733 ^ (c.blknum - c.rsnum) % 4 = 1
        rw [Nat.pow_mod]
        norm_num
      have hadj := adjusted_lt_of_mod c a ef sf ha hmod
      simp only [calculateMdBlocks]
      rw [if_neg (by omega)]
      rw [if_neg (by
        simp only [ne_eq, splitDigits_snd, not_not]
        exact Nat.div_eq_of_lt hadj)]
      rw [if_pos (by omega : c.mdsz * 2 > 8)]
    · intro h4 e a ef sf
      have hmdsz : c.mdsz = M := by rw [hceq]
      simp only [calculateMdBlocks]
      by_cases h1 : a > MaxAddr c
      · rw [if_pos h1]; simp
      · rw [if_neg h1]
        by_cases h2 : (splitDigits (maxvals c.mdsz) (c.blknum - c.rsnum)
            (adjAddr c a ef sf)).2 ≠ 0
        · rw [if_pos h2]; simp
        · rw [if_neg h2, if_neg (by omega : ¬ c.mdsz * 2 > 8)]
          split <;> simp
    · intro h5 E p5 p3 a ef data o
      have hmdsz : c.mdsz = 5 := by rw [hceq, h5]
      simp only [Encode]
      cases hinner : encodeInner E c p5 p3 a ef false data with
      | ok o0 => exact absurd hinner (encodeInner_ne_ok_of_M5 E c p5 p3 a ef false data hmdsz o0)
      | fail oo e => simp
      | panicked k => simp

/-- Witness for C3: the M = 5 configuration B=5, R=0 aborts when packing
address 0. -/
theorem C3_mdsz_guard_witness :
    calculateMdBlocks (fun s => some s) ⟨5, 0, 5⟩ 0 false false
      = CalcResult.panicMdTooBig :=
  ((C3_mdsz_guard 5 5 0).2 ⟨5, 0, 5⟩ rfl).1 rfl (fun s => some s) 0 false false
    (Nat.zero_le _)

/-- C4: the `Encode` wrapper re-runs the whole pipeline with `sf = true` exactly
when the first run succeeded and its GC fraction exceeds 0.6; if the retry also
succeeds and also exceeds 0.6 it aborts; consequently every oligo returned with
a nil error has GC fraction at most 0.6. -/
theorem C4_gc_balancer (E : Ext) (c : Codec) (p5 p3 : Oligo) (a : Nat) (ef : Bool)
    (data : List (List Nat)) :
    (∀ o, encodeInner E c p5 p3 a ef false data = EncOut.ok o → E.gcHigh o = false →
      Encode E c p5 p3 a ef data = EncOut.ok o)
    ∧ (∀ o o1, encodeInner E c p5 p3 a ef false data = EncOut.ok o → E.gcHigh o = true →
        encodeInner E c p5 p3 a ef true data = EncOut.ok o1 → E.gcHigh o1 = true →
        Encode E c p5 p3 a ef data = EncOut.panicked PanicKind.bothHighGC)
    ∧ (∀ o o1, encodeInner E c p5 p3 a ef false data = EncOut.ok o → E.gcHigh o = true →
        encodeInner E c p5 p3 a ef true data = EncOut.ok o1 → E.gcHigh o1 = false →
        Encode E c p5 p3 a ef data = EncOut.ok o1)
    ∧ (∀ r, encodeInner E c p5 p3 a ef false data = r → (∀ o, r ≠ EncOut.ok o) →
        Encode E c p5 p3 a ef data = r)
    ∧ (∀ o, Encode E c p5 p3 a ef data = EncOut.ok o → E.gcHigh o = false) := by
  refine ⟨?_, ?_, ?_, ?_, ?_⟩
  · intro o h hgc
    simp [Encode, h, hgc]
  · intro o o1 h hgc h1 hgc1
    simp [Encode, h, hgc, h1, hgc1]
  · intro o o1 h hgc h1 hgc1
    simp [Encode, h, hgc, h1, hgc1]
  · intro r h hne
    cases r with
    | ok o => exact absurd rfl (hne o)
    | fail oo e => simp [Encode, h]
    | panicked k => simp [Encode, h]
  · intro o hok
    cases hinner : encodeInner E c p5 p3 a ef false data with
    | ok o0 =>
      by_cases hg : E.gcHigh o0 = true
      · cases hinner1 : encodeInner E c p5 p3 a ef true data with
        | ok o1 =>
          by_cases hg1 : E.gcHigh o1 = true
          · simp [Encode, hinner, hg, hinner1, hg1] at hok
          · simp only [Encode, hinner, hg, hinner1, if_true, if_pos] at hok
            rw [if_neg hg1] at hok
            injection hok with hok
            subst hok
            simpa using hg1
        | fail oo e => simp [Encode, hinner, hg, hinner1] at hok
        | panicked k => simp [Encode, hinner, hg, hinner1] at hok
      · simp only [Encode, hinner] at hok
        rw [if_neg hg] at hok
        injection hok with hok
        subst hok
        simpa using hg
    | fail oo e => simp [Encode, hinner] at hok
    | panicked k => simp [Encode, hinner] at hok

/-- A concrete instantiation of the external collaborators, used by witnesses. -/
def extW : Ext where
  l0dec := fun _ _ => none
  l0enc := fun _ _ w => some (List.replicate w 0)
  find := fun _ _ => (0, 0)
  ecEnc := fun s => some s
  ecVerify := fun _ => (true, false)
  tryRecover := fun _ _ _ _ => ([], [], none)
  gcHigh := fun _ => false

/-- Witness for C4: a successful low-GC encode is returned unchanged. -/
theorem C4_gc_balancer_witness :
    Encode extW ⟨2, 1, 3⟩ [0, 0, 0, 0] [] 0 false [[0, 0, 0, 0], [0, 0, 0, 0]]
      = EncOut.ok (List.replicate 46 0) :=
  (C4_gc_balancer extW ⟨2, 1, 3⟩ [0, 0, 0, 0] [] 0 false
      [[0, 0, 0, 0], [0, 0, 0, 0]]).1
    (List.replicate 46 0) (by decide) rfl

/-! ### Decode pipeline lemmas -/

theorem parseStep_data (E : Ext) (c : Codec) (flip : Bool) (st : PSt) (i : Nat) :
    (parseStep E c flip st i).data = st.data ++ [blockOut E flip st.ol st.pfx] := rfl

theorem foldl_parseStep_data_length (E : Ext) (c : Codec) (flip : Bool) :
    ∀ (l : List Nat) (st : PSt),
      ((l.foldl (parseStep E c flip) st).data).length = st.data.length + l.length := by
  intro l
  induction l with
  | nil => intro st; simp
  | cons i l ih =>
    intro st
    simp only [List.foldl_cons, List.length_cons]
    rw [ih (parseStep E c flip st i), parseStep_data]
    simp only [List.length_append, List.length_cons, List.length_nil]
    omega

theorem parseBlocks_data_length (E : Ext) (c : Codec) (flip : Bool) (body pfx0 : Oligo) :
    (parseBlocks E c flip body pfx0).data.length = c.blknum := by
  simp [parseBlocks, foldl_parseStep_data_length]

theorem afterBlocks_norcv_cases (E : Ext) (c : Codec) (flip : Bool) (p5 p3 sol : Oligo)
    (st : PSt) :
    (afterBlocks E c false flip p5 p3 sol st).err = none
      ∧ (afterBlocks E c false flip p5 p3 sol st).data = st.data
    ∨ afterBlocks E c false flip p5 p3 sol st
        = ⟨0, false, false, st.data, some Err.metadata⟩ := by
  simp only [afterBlocks]
  split
  · split
    · exact Or.inl ⟨rfl, rfl⟩
    · exact Or.inr rfl
  · exact Or.inr rfl

theorem afterBlocks_metadata (E : Ext) (c : Codec) (flip : Bool) (p5 p3 sol : Oligo)
    (st : PSt) (h : (afterBlocks E c false flip p5 p3 sol st).err = some Err.metadata) :
    afterBlocks E c false flip p5 p3 sol st = ⟨0, false, false, st.data, some Err.metadata⟩ := by
  rcases afterBlocks_norcv_cases E c flip p5 p3 sol st with ⟨h0, _⟩ | h0
  · rw [h0] at h
    cases h
  · exact h0

/-- The primer-mismatch condition of `decode`: the 5' primer does not match at
position 0, or the 3' primer does not match ending at the oligo's end. -/
def primerFail (E : Ext) (p5 p3 ol : Oligo) : Prop :=
  (E.find ol p5).1 ≠ 0 ∨ (E.find ol p3).1 < 0
    ∨ (E.find ol p3).1 + ((E.find ol p3).2 : Int) ≠ (ol.length : Int)

instance (E : Ext) (p5 p3 ol : Oligo) : Decidable (primerFail E p5 p3 ol) := by
  unfold primerFail
  infer_instance

theorem decode_primerFail (E : Ext) (c : Codec) (p5 p3 ol : Oligo) (flip rcv : Bool)
    (h : primerFail E p5 p3 ol) :
    decode E c p5 p3 ol flip rcv = ⟨0, false, false, [], some Err.primer⟩ := by
  simp only [decode]
  by_cases h1 : (E.find ol p5).1 ≠ 0
  · rw [if_pos h1]
  · rw [if_neg h1]
    rcases h with h | h | h
    · exact absurd h h1
    · rw [if_pos (Or.inl h)]
    · rw [if_pos (Or.inr h)]

theorem decode_primerOk (E : Ext) (c : Codec) (p5 p3 ol : Oligo) (flip rcv : Bool)
    (h : ¬ primerFail E p5 p3 ol) :
    decode E c p5 p3 ol flip rcv =
      afterBlocks E c rcv flip p5 p3
        (oslice ol ((E.find ol p5).1.toNat + (E.find ol p5).2) (E.find ol p3).1.toNat)
        (parseBlocks E c flip
          (oslice ol ((E.find ol p5).1.toNat + (E.find ol p5).2) (E.find ol p3).1.toNat)
          (oslice p5 (p5.length - 4) p5.length)) := by
  unfold primerFail at h
  push_neg at h
  simp only [decode]
  rw [if_neg (by simp [h.1]), if_neg (not_or.mpr ⟨not_lt.mpr h.2.1, fun hc => hc h.2.2⟩)]

theorem blockOut_none (E : Ext) (flip : Bool) (ol pfx : Oligo)
    (h : ol.length < 17 ∨ E.l0dec pfx (oslice ol 0 17) = none
      ∨ (∃ v, E.l0dec pfx (oslice ol 0 17) = some v ∧ decodeBlockVal flip v = none)) :
    blockOut E flip ol pfx = none := by
  unfold blockOut
  rcases h with h | h | ⟨v, hv, hd⟩
  · rw [if_pos h]
  · by_cases h17 : ol.length < 17
    · rw [if_pos h17]
    · rw [if_neg h17]
      simp [h]
  · by_cases h17 : ol.length < 17
    · rw [if_pos h17]
    · rw [if_neg h17]
      simp [hv, hd]

/-- C6: a short, undecodable or parity-failing data segment yields an absent
entry and does not abort the decode: the per-block loop still processes the
metadata segment identically, and whenever the per-block loop is reached the
returned data vector has exactly `blknum` entries. -/
theorem C6_partial_decode (E : Ext) (c : Codec) (p5 p3 ol : Oligo) (flip : Bool) :
    ((decode E c p5 p3 ol flip false).err ≠ some Err.primer →
      (decode E c p5 p3 ol flip false).data.length = c.blknum)
    ∧ (∀ (st : PSt) (i : Nat),
        (st.ol.length < 17 ∨ E.l0dec st.pfx (oslice st.ol 0 17) = none
          ∨ (∃ v, E.l0dec st.pfx (oslice st.ol 0 17) = some v
              ∧ decodeBlockVal flip v = none)) →
        (parseStep E c flip st i).data = st.data ++ [none])
    ∧ (∀ (st st' : PSt) (i : Nat), st.ol = st'.ol → st.mdblk = st'.mdblk →
        st.mdok = st'.mdok →
        (parseStep E c flip st i).mdblk = (parseStep E c flip st' i).mdblk
        ∧ (parseStep E c flip st i).mdok = (parseStep E c flip st' i).mdok
        ∧ (parseStep E c flip st i).ol = (parseStep E c flip st' i).ol) := by
  refine ⟨?_, ?_, ?_⟩
  · intro herr
    by_cases hp : primerFail E p5 p3 ol
    · rw [decode_primerFail E c p5 p3 ol flip false hp] at herr
      exact absurd rfl herr
    · rw [decode_primerOk E c p5 p3 ol flip false hp]
      rcases afterBlocks_norcv_cases E c flip p5 p3
          (oslice ol ((E.find ol p5).1.toNat + (E.find ol p5).2) (E.find ol p3).1.toNat)
          (parseBlocks E c flip
            (oslice ol ((E.find ol p5).1.toNat + (E.find ol p5).2) (E.find ol p3).1.toNat)
            (oslice p5 (p5.length - 4) p5.length)) with ⟨_, hd⟩ | hd
      · rw [hd]
        exact parseBlocks_data_length E c flip _ _
      · rw [hd]
        exact parseBlocks_data_length E c flip _ _
  · intro st i h
    rw [parseStep_data, blockOut_none E flip st.ol st.pfx h]
  · intro st st' i h1 h2 h3
    unfold parseStep
    rw [h1, h2, h3]
    exact ⟨rfl, rfl, rfl⟩

/-- Witness for C6: with failing `l0` decodes on an empty body the decode does
not abort and still returns one entry per block. -/
theorem C6_partial_decode_witness :
    (decode extW ⟨2, 1, 3⟩ [] [] [] false false).data.length = 2 :=
  (C6_partial_decode extW ⟨2, 1, 3⟩ [] [] [] false).1 (by decide)

/-- C7: `decode` fails with the primer-mismatch error exactly when the 5'
primer does not match at position 0 or the 3' primer does not match ending at
the oligo's end; otherwise the block parser consumes exactly the body between
the matches, with the 5' primer's last 4 symbols as the initial context. -/
theorem C7_primer_gate (E : Ext) (c : Codec) (p5 p3 ol : Oligo) (flip : Bool) :
    ((decode E c p5 p3 ol flip false).err = some Err.primer ↔ primerFail E p5 p3 ol)
    ∧ (¬ primerFail E p5 p3 ol →
        decode E c p5 p3 ol flip false =
          afterBlocks E c false flip p5 p3
            (oslice ol ((E.find ol p5).1.toNat + (E.find ol p5).2) (E.find ol p3).1.toNat)
            (parseBlocks E c flip
              (oslice ol ((E.find ol p5).1.toNat + (E.find ol p5).2) (E.find ol p3).1.toNat)
              (oslice p5 (p5.length - 4) p5.length))) := by
  constructor
  · constructor
    · intro h
      by_contra hpf
      rw [decode_primerOk E c p5 p3 ol flip false hpf] at h
      rcases afterBlocks_norcv_cases E c flip p5 p3
          (oslice ol ((E.find ol p5).1.toNat + (E.find ol p5).2) (E.find ol p3).1.toNat)
          (parseBlocks E c flip
            (oslice ol ((E.find ol p5).1.toNat + (E.find ol p5).2) (E.find ol p3).1.toNat)
            (oslice p5 (p5.length - 4) p5.length)) with ⟨h0, _⟩ | h0
      · rw [h0] at h
        cases h
      · rw [h0] at h
        cases h
    · intro h
      rw [decode_primerFail E c p5 p3 ol flip false h]
  · exact decode_primerOk E c p5 p3 ol flip false

/-- The external collaborators with a failing primer search, used by witnesses. -/
def extFail : Ext :=
  { extW with find := fun _ _ => (-1, 0) }

/-- Witness for C7: a failing 5' primer search yields the primer error. -/
theorem C7_primer_gate_witness :
    (decode extFail ⟨2, 1, 3⟩ [] [] [] false false).err = some Err.primer :=
  (C7_primer_gate extFail ⟨2, 1, 3⟩ [] [] [] false).1.mpr (Or.inl (by decide))

/-- C8: `Decode` re-runs the pipeline with the polarity hypothesis inverted and
returns that second result verbatim exactly when the first attempt returned no
error and reported `sf`; in every other case the first result is returned
unchanged. -/
theorem C8_polarity_retry (E : Ext) (c : Codec) (p5 p3 ol : Oligo) (rcv : Bool) :
    ((decode E c p5 p3 ol false rcv).err = none →
      (decode E c p5 p3 ol false rcv).sf = true →
      Decode E c p5 p3 ol rcv
        = ((decode E c p5 p3 ol true rcv).address, (decode E c p5 p3 ol true rcv).ef,
            (decode E c p5 p3 ol true rcv).data, (decode E c p5 p3 ol true rcv).err))
    ∧ ((decode E c p5 p3 ol false rcv).err ≠ none
        ∨ (decode E c p5 p3 ol false rcv).sf = false →
      Decode E c p5 p3 ol rcv
        = ((decode E c p5 p3 ol false rcv).address, (decode E c p5 p3 ol false rcv).ef,
            (decode E c p5 p3 ol false rcv).data, (decode E c p5 p3 ol false rcv).err)) := by
  constructor
  · intro he hsf
    simp only [Decode]
    rw [if_neg (by simp [he, hsf])]
  · intro h
    simp only [Decode]
    rw [if_pos h]

/-- Witness for C8: a primer error on the first attempt is returned unchanged. -/
theorem C8_polarity_retry_witness :
    Decode extFail ⟨2, 1, 3⟩ [] [] [] false = (0, false, [], some Err.primer) :=
  (C8_polarity_retry extFail ⟨2, 1, 3⟩ [] [] [] false).2 (Or.inl (by decide))

/-- C10: when `decode` fails with the metadata-unrecoverable error it still
returns the per-block parse results (one entry per block) alongside the error,
with address 0 and both flags false. -/
theorem C10_metadata_error_keeps_data (E : Ext) (c : Codec) (p5 p3 ol : Oligo)
    (flip : Bool) (h : (decode E c p5 p3 ol flip false).err = some Err.metadata) :
    (decode E c p5 p3 ol flip false).address = 0
    ∧ (decode E c p5 p3 ol flip false).ef = false
    ∧ (decode E c p5 p3 ol flip false).sf = false
    ∧ (decode E c p5 p3 ol flip false).data
        = (parseBlocks E c flip
            (oslice ol ((E.find ol p5).1.toNat + (E.find ol p5).2) (E.find ol p3).1.toNat)
            (oslice p5 (p5.length - 4) p5.length)).data
    ∧ (decode E c p5 p3 ol flip false).data.length = c.blknum := by
  by_cases hp : primerFail E p5 p3 ol
  · rw [decode_primerFail E c p5 p3 ol flip false hp] at h
    cases h
  · rw [decode_primerOk E c p5 p3 ol flip false hp] at h ⊢
    rw [afterBlocks_metadata E c flip p5 p3 _ _ h]
    exact ⟨rfl, rfl, rfl, rfl, parseBlocks_data_length E c flip _ _⟩

/-- Witness for C10 on a metadata-unrecoverable decode. -/
theorem C10_metadata_error_keeps_data_witness :
    (decode extW ⟨1, 0, 3⟩ [] [] [] false false).address = 0
    ∧ (decode extW ⟨1, 0, 3⟩ [] [] [] false false).data.length = 1 :=
  ⟨(C10_metadata_error_keeps_data extW ⟨1, 0, 3⟩ [] [] [] false (by decide)).1,
    (C10_metadata_error_keeps_data extW ⟨1, 0, 3⟩ [] [] [] false (by decide)).2.2.2.2⟩

/-! ### Frame lemmas for the payload-negation store model -/

theorem getD_append_left {α : Type} : ∀ (l l' : List α) (q : Nat) (d : α),
    q < l.length → (l ++ l').getD q d = l.getD q d := by
  intro l
  induction l with
  | nil => intro l' q d h; simp at h
  | cons a l ih =>
    intro l' q d h
    cases q with
    | zero => rfl
    | succ q => exact ih l' q d (by simp at h; omega)

theorem getD_concat_length {α : Type} : ∀ (l : List α) (b : α) (d : α),
    (l ++ [b]).getD l.length d = b := by
  intro l
  induction l with
  | nil => intro b d; rfl
  | cons a l ih => intro b d; exact ih b d

theorem getD_mem {α : Type} : ∀ (l : List α) (j : Nat) (d : α),
    j < l.length → l.getD j d ∈ l := by
  intro l
  induction l with
  | nil => intro j d h; simp at h
  | cons a l ih =>
    intro j d h
    cases j with
    | zero => exact List.mem_cons_self a l
    | succ j => exact List.mem_cons_of_mem a (ih j d (by simp at h; omega))

/-- `negateBlocks` only appends to the store: pre-existing buffers are read
back unchanged. -/
theorem negateBlocks_preserves : ∀ (ps : List Nat) (st : Store) (i : Nat) (d : List Nat),
    i < st.length → ((negateBlocks st ps).1).getD i d = st.getD i d := by
  intro ps
  induction ps with
  | nil => intro st i d hi; rfl
  | cons p ps ih =>
    intro st i d hi
    show ((negateBlocks (st ++ [(st.getD p []).map bnot]) ps).1).getD i d = st.getD i d
    rw [ih _ i d (by simp; omega)]
    exact getD_append_left _ _ i d hi

theorem negateBlocks_len : ∀ (ps : List Nat) (st : Store),
    (negateBlocks st ps).2.length = ps.length := by
  intro ps
  induction ps with
  | nil => intro st; rfl
  | cons p ps ih =>
    intro st
    show (st.length :: (negateBlocks (st ++ [(st.getD p []).map bnot]) ps).2).length = _
    simp [ih]

/-- Each fresh buffer allocated by `negateBlocks` holds the bit-complement of
the buffer its source pointer referred to. -/
theorem negateBlocks_content : ∀ (ps : List Nat) (st : Store),
    (∀ p ∈ ps, p < st.length) → ∀ j, j < ps.length →
      ((negateBlocks st ps).1).getD ((negateBlocks st ps).2.getD j 0) []
        = (st.getD (ps.getD j 0) []).map bnot := by
  intro ps
  induction ps with
  | nil => intro st h j hj; simp at hj
  | cons p ps ih =>
    intro st h j hj
    cases j with
    | zero =>
      show ((negateBlocks (st ++ [(st.getD p []).map bnot]) ps).1).getD
        ((st.length :: (negateBlocks (st ++ [(st.getD p []).map bnot]) ps).2).getD 0 0) []
          = (st.getD p []).map bnot
      rw [show ((st.length :: (negateBlocks (st ++ [(st.getD p []).map bnot]) ps).2).getD 0 0)
        = st.length from rfl]
      rw [negateBlocks_preserves ps _ st.length [] (by simp)]
      exact getD_concat_length st _ []
    | succ j =>
      have hlen : j < ps.length := by simp at hj; omega
      have hps : ∀ q ∈ ps, q < (st ++ [(st.getD p []).map bnot]).length := by
        intro q hq
        have := h q (List.mem_cons_of_mem p hq)
        simp
        omega
      have hIH := ih (st ++ [(st.getD p []).map bnot]) hps j hlen
      show ((negateBlocks (st ++ [(st.getD p []).map bnot]) ps).1).getD
        ((negateBlocks (st ++ [(st.getD p []).map bnot]) ps).2.getD j 0) []
          = (st.getD (ps.getD j 0) []).map bnot
      rw [hIH]
      rw [getD_append_left st _ (ps.getD j 0) []
        (h (ps.getD j 0) (List.mem_cons_of_mem p (getD_mem ps j 0 hlen)))]

/-- C9: the payload-negation step of `encode` never writes to the caller's
buffers: on the `sf = false` path the store is untouched, on the `sf = true`
path all complemented bytes go to freshly allocated buffers, every
pre-existing buffer reads back unchanged, and the fresh buffers hold the
complemented payload. -/
theorem C9_payload_frame (st : Store) (ptrs : List Nat) (sf : Bool) :
    (∀ i d, i < st.length → ((encodeData st ptrs sf).1).getD i d = st.getD i d)
    ∧ (encodeData st ptrs true).2.length = ptrs.length
    ∧ ((∀ p ∈ ptrs, p < st.length) → ∀ j, j < ptrs.length →
        ((encodeData st ptrs true).1).getD ((encodeData st ptrs true).2.getD j 0) []
          = (st.getD (ptrs.getD j 0) []).map bnot) := by
  refine ⟨?_, ?_, ?_⟩
  · intro i d hi
    cases sf
    · rfl
    · exact negateBlocks_preserves ptrs st i d hi
  · exact negateBlocks_len ptrs st
  · intro h j hj
    exact negateBlocks_content ptrs st h j hj

/-- Witness for C9 on a concrete two-buffer store. -/
theorem C9_payload_frame_witness :
    ((encodeData [[1, 2], [3]] [0, 1] true).1).getD 0 [] = [1, 2]
    ∧ (encodeData [[1, 2], [3]] [0, 1] true).2.length = 2
    ∧ ((encodeData [[1, 2], [3]] [0, 1] true).1).getD
        ((encodeData [[1, 2], [3]] [0, 1] true).2.getD 0 0) [] = [254, 253] := by
  refine ⟨(C9_payload_frame [[1, 2], [3]] [0, 1] true).1 0 [] (by decide),
    (C9_payload_frame [[1, 2], [3]] [0, 1] true).2.1, ?_⟩
  have h := (C9_payload_frame [[1, 2], [3]] [0, 1] true).2.2 (by decide) 0 (by decide)
  rw [h]
  decide

end L1
